import Mathlib

/-!
Verification of the Gemini streaming client
(`src/services/planner/gemini_stream.py`) against its natural-language
specification.

The Python module is embedded shallowly:

* `GeminiStreamEvent`, `GeminiStreamConfig`, `GeminiGenerateRequest` and
  `GeminiTextAccumulator` mirror the dataclasses of the source (the `raw`
  payload and wall-clock `timestamp` fields of an event are omitted: no
  examined behaviour reads them).  Python `float` configuration values are
  modelled as `ℚ`: the backoff arithmetic of the source only multiplies by
  powers of two and takes `min`, which IEEE doubles perform exactly.
* A transport used by one attempt is abstracted by `TransportBehavior`:
  whether `__aenter__` raises, the events `iter_messages` yields, and
  whether iteration itself raises afterwards.  `pumpOutput` is the exact
  queue content `GeminiStreamClient._pump_events` produces from such a
  transport (source lines 304-318).
* The heartbeat task writes into the same queue as the pump, so the merged
  channel one attempt consumes is an arbitrary `Interleaving` of heartbeat
  events with the pump output (`ChannelOf`); when
  `heartbeat_interval <= 0` no heartbeat task is started and the channel
  is the pump output itself (source lines 259-263).
* `runAttempt` is the inner `while True` consumption loop of
  `GeminiStreamClient.stream` (source lines 267-276) and `streamGo` /
  `streamRun` are the outer retry loop (source lines 248-302), returning a
  `StreamTrace`: the caller-visible events, the number of attempts made,
  the backoff delays slept, and the message carried by a raised
  `GeminiStreamError` (`none` when the stream finished normally).
  `Option` is used for the (unreachable in practice) situation where a
  channel never delivers a terminal event and the loop would suspend
  forever.
-/

/-- One streaming event (`GeminiStreamEvent`, source lines 63-70).  The
`event` field is the tag string used by the source (`"chunk"`,
`"heartbeat"`, `"complete"`, `"error"`, `"__end__"`); `text` is the
optional payload. -/
structure GeminiStreamEvent where
  event : String
  text : Option String := none
deriving DecidableEq, Repr

/-- Configuration (`GeminiStreamConfig`, source lines 35-47).  Note that the
dataclass carries a single optional `endpoint` and, in particular, no
`fallback_endpoints` field.  `client_options` is omitted (opaque mapping,
never read by the orchestrator). -/
structure GeminiStreamConfig where
  api_key : String
  model : String
  endpoint : Option String := none
  request_timeout : ℚ := 30
  heartbeat_interval : ℚ := 20
  max_retries : Int := 3
  backoff_base : ℚ := 1
  backoff_max : ℚ := 30
deriving DecidableEq, Repr

/-- Generation request (`GeminiGenerateRequest`, source lines 50-60).  The
payload fields are opaque to the streaming logic; only their presence is
modelled. -/
structure GeminiGenerateRequest where
  contents : List String := []
  system_instruction : Option String := none
deriving DecidableEq, Repr

/-- Python truthiness of an `Optional[str]`: `None` and `""` are falsy. -/
def textTruthy : Option String → Bool
  | none => false
  | some s => s ≠ ""

/-- Accumulator state (`GeminiTextAccumulator`, source lines 73-85): the
internal `_parts` list. -/
structure GeminiTextAccumulator where
  parts : List String := []
deriving DecidableEq, Repr

/-- `GeminiTextAccumulator.push` (source lines 79-81): append `event.text`
iff the event is a `"chunk"` and its text is truthy. -/
def GeminiTextAccumulator.push (a : GeminiTextAccumulator) (e : GeminiStreamEvent) :
    GeminiTextAccumulator :=
  if e.event = "chunk" ∧ textTruthy e.text then ⟨a.parts ++ [e.text.getD ""]⟩ else a

/-- `GeminiTextAccumulator.text` (source lines 83-85): join of the parts. -/
def GeminiTextAccumulator.text (a : GeminiTextAccumulator) : String :=
  String.join a.parts

/-- Fold a whole event sequence into an accumulator, starting empty. -/
def accumulate (events : List GeminiStreamEvent) : GeminiTextAccumulator :=
  events.foldl GeminiTextAccumulator.push ⟨[]⟩

/-- The heartbeat event the orchestrator's `_emit_heartbeats` enqueues
(source line 325): `GeminiStreamEvent(event="heartbeat")`. -/
def heartbeatEvent : GeminiStreamEvent := ⟨"heartbeat", none⟩

/-- An error event as built by `_pump_events` / `_run_stream`:
`GeminiStreamEvent(event="error", text=str(exc))`. -/
def errorEvent (msg : String) : GeminiStreamEvent := ⟨"error", some msg⟩

/-- The end-of-attempt sentinel `GeminiStreamEvent(event="__end__")`. -/
def endEvent : GeminiStreamEvent := ⟨"__end__", none⟩

/-- The completion event `GeminiStreamEvent(event="complete")`. -/
def completeEvent : GeminiStreamEvent := ⟨"complete", none⟩

/-- Observable behaviour of one transport instance during one attempt:
does `__aenter__` raise (and with what message), which events does
`iter_messages` yield, and does iteration/exit raise afterwards. -/
structure TransportBehavior where
  enterResult : Option String := none
  events : List GeminiStreamEvent := []
  iterError : Option String := none
deriving DecidableEq, Repr

/-- A transport whose `enter()` raises with the given message. -/
def enterFailing (msg : String) : TransportBehavior :=
  { enterResult := some msg }

/-- A transport that enters fine and immediately yields an `error` event. -/
def immediateError (msg : String) : TransportBehavior :=
  { events := [errorEvent msg] }

/-- Queue content produced by `GeminiStreamClient._pump_events` (source
lines 304-318) for one attempt: the transport's events in order, then an
`error` event if entering/iterating raised, and always the `"__end__"`
sentinel from the `finally` block. -/
def pumpOutput (t : TransportBehavior) : List GeminiStreamEvent :=
  match t.enterResult with
  | some msg => [errorEvent msg, endEvent]
  | none =>
    t.events ++
      (match t.iterError with
       | some msg => [errorEvent msg]
       | none => []) ++ [endEvent]

/-- `zs` is an order-preserving merge of `xs` and `ys`. -/
inductive Interleaving : List GeminiStreamEvent → List GeminiStreamEvent →
    List GeminiStreamEvent → Prop
  | nil : Interleaving [] [] []
  | left {xs ys zs} (a : GeminiStreamEvent) :
      Interleaving xs ys zs → Interleaving (a :: xs) ys (a :: zs)
  | right {xs ys zs} (a : GeminiStreamEvent) :
      Interleaving xs ys zs → Interleaving xs (a :: ys) (a :: zs)

/-- Every element of the list is the heartbeat event. -/
def AllHeartbeats (l : List GeminiStreamEvent) : Prop :=
  ∀ e ∈ l, e = heartbeatEvent

/-- The merged channels one attempt of `stream` can consume: heartbeat
events interleaved with the pump output, and no heartbeats at all when
`heartbeat_interval <= 0` (the task is only created under
`if self._config.heartbeat_interval > 0`, source lines 259-263). -/
def ChannelOf (cfg : GeminiStreamConfig) (t : TransportBehavior)
    (ch : List GeminiStreamEvent) : Prop :=
  ∃ hbs, AllHeartbeats hbs ∧ Interleaving hbs (pumpOutput t) ch ∧
    (cfg.heartbeat_interval ≤ 0 → hbs = [])

/-- Whether `stream` creates the heartbeat task for a configuration
(source line 259: `if self._config.heartbeat_interval > 0`). -/
def startsHeartbeatTask (cfg : GeminiStreamConfig) : Bool :=
  cfg.heartbeat_interval > 0

/-- The configuration `stream` hands to the transport factory on attempt
`i`: `_pump_events` always calls `factory(self._config, request)` (source
line 311), so the very same configuration is used on every attempt — no
per-attempt endpoint rewriting happens anywhere in the module. -/
def factoryConfigAt (cfg : GeminiStreamConfig) (_i : Nat) : GeminiStreamConfig :=
  cfg

/-- Outcome of one attempt's consumption loop: the loop broke on the
`"__end__"` sentinel (success) or on an `"error"` event carrying the given
text. -/
inductive AttemptOutcome where
  | success : AttemptOutcome
  | failure : Option String → AttemptOutcome
deriving DecidableEq, Repr

/-- The inner `while True` loop of `GeminiStreamClient.stream` (source
lines 267-276): drain the queue, stop silently on `"__end__"`, stop and
record the error text on `"error"`, and yield every other event to the
caller.  `none` models a channel that never delivers a terminal event, on
which `await queue.get()` would suspend forever. -/
def runAttempt : List GeminiStreamEvent → Option (List GeminiStreamEvent × AttemptOutcome)
  | [] => none
  | e :: rest =>
    if e.event = "__end__" then some ([], AttemptOutcome.success)
    else if e.event = "error" then some ([], AttemptOutcome.failure e.text)
    else (runAttempt rest).map (fun p => (e :: p.1, p.2))

/-- `RuntimeError(event.text or "Unknown Gemini error")` (source line
274): the message of the exception recorded as the last error. -/
def lastErrorMessage : Option String → String
  | none => "Unknown Gemini error"
  | some s => if s = "" then "Unknown Gemini error" else s

/-- Result of one whole `stream(...)` call: the events yielded to the
caller across all attempts, how many attempts ran, the backoff delays
slept between attempts, and — when the retry budget was exhausted — the
message of the exception attached as the cause of the raised
`GeminiStreamError`. -/
structure StreamTrace where
  visible : List GeminiStreamEvent
  attemptsMade : Nat
  delays : List ℚ
  raised : Option String
deriving DecidableEq, Repr

/-- The outer retry loop of `GeminiStreamClient.stream` (source lines
248-302), starting at attempt counter `attempt`.  On a failed attempt the
source breaks (and raises) when `attempt >= max_retries`, otherwise
increments `attempt`, sleeps
`min(backoff_base * 2 ** (attempt - 1), backoff_max)` and retries.  The
fuel argument only bounds the recursion; `streamRun` supplies enough for
the loop's real bound of `max_retries.toNat + 1` attempts. -/
def streamGo (cfg : GeminiStreamConfig) (channels : Nat → List GeminiStreamEvent) :
    Nat → Nat → Option StreamTrace
  | 0, _ => none
  | _fuel + 1, attempt =>
    match runAttempt (channels attempt) with
    | none => none
    | some (ys, AttemptOutcome.success) => some ⟨ys, 1, [], none⟩
    | some (ys, AttemptOutcome.failure t) =>
      if (attempt : Int) ≥ cfg.max_retries then
        some ⟨ys, 1, [], some (lastErrorMessage t)⟩
      else
        match streamGo cfg channels _fuel (attempt + 1) with
        | none => none
        | some tr =>
          some ⟨ys ++ tr.visible, tr.attemptsMade + 1,
            min (cfg.backoff_base * 2 ^ (attempt + 1 - 1)) cfg.backoff_max :: tr.delays,
            tr.raised⟩

/-- One whole `stream(...)` call, given the merged channel of each
attempt. -/
def streamRun (cfg : GeminiStreamConfig) (channels : Nat → List GeminiStreamEvent) :
    Option StreamTrace :=
  streamGo cfg channels (cfg.max_retries.toNat + 1) 0

/-- State of a `GoogleGenerativeAITransport` (source lines 106-138): the
`_queue` is `None` until `__aenter__` runs; once entered it holds the
events the background thread will deliver. -/
structure GoogleGenerativeAITransport where
  config : GeminiStreamConfig
  request : GeminiGenerateRequest
  queue : Option (List GeminiStreamEvent)
deriving DecidableEq, Repr

/-- `GoogleGenerativeAITransport.__init__` (source lines 109-114): stores
config and request and leaves `_queue = None`. -/
def GoogleGenerativeAITransport.init (cfg : GeminiStreamConfig)
    (req : GeminiGenerateRequest) : GoogleGenerativeAITransport :=
  ⟨cfg, req, none⟩

/-- The drain loop of `iter_messages` (source lines 134-138): yield queue
items until the `"__end__"` sentinel; `none` if the sentinel never comes
(the loop would block on `queue.get()`). -/
def drainUntilEnd : List GeminiStreamEvent → Option (List GeminiStreamEvent)
  | [] => none
  | e :: rest =>
    if e.event = "__end__" then some []
    else (drainUntilEnd rest).map (e :: ·)

/-- `GoogleGenerativeAITransport.iter_messages` (source lines 130-138):
raises `RuntimeError("Transport not entered")` when `_queue is None`,
otherwise drains the queue up to the sentinel. -/
def GoogleGenerativeAITransport.iter_messages (s : GoogleGenerativeAITransport) :
    Except String (Option (List GeminiStreamEvent)) :=
  match s.queue with
  | none => Except.error "Transport not entered"
  | some items => Except.ok (drainUntilEnd items)

/-- Events `_run_stream` (source lines 143-196) hands to `iter_messages`
for a backend run that yields the given chunk texts and then either
completes or raises: a `"chunk"` event per backend chunk, then
`"complete"` or an `"error"` event (the trailing `"__end__"` is consumed
inside `iter_messages` and never yielded). -/
def googleStreamEvents (chunks : List String) (failure : Option String) :
    List GeminiStreamEvent :=
  chunks.map (fun t => ⟨"chunk", some t⟩) ++
    (match failure with
     | none => [completeEvent]
     | some msg => [errorEvent msg])

/-- The `TransportBehavior` of a production `GoogleGenerativeAITransport`
whose backend run yields the given chunks and terminal outcome: entering
never raises (it only spawns the worker thread) and all backend failures
are already converted to `error` events inside the worker. -/
def googleBehavior (chunks : List String) (failure : Option String) : TransportBehavior :=
  { events := googleStreamEvents chunks failure }

/-- No event of the list is a `complete` event. -/
def NoComplete (l : List GeminiStreamEvent) : Prop :=
  ∀ e ∈ l, e.event ≠ "complete"

/-- Shape of a caller-visible sequence in which a `complete` event can
only be followed by heartbeats (and hence occurs at most once). -/
def GoodVisible (l : List GeminiStreamEvent) : Prop :=
  NoComplete l ∨ ∃ pre c post, l = pre ++ c :: post ∧ c.event = "complete" ∧
    NoComplete pre ∧ AllHeartbeats post

/-- An event a transport may emit strictly before its terminal event. -/
def BodyEvent (e : GeminiStreamEvent) : Prop :=
  e.event ≠ "complete" ∧ e.event ≠ "error" ∧ e.event ≠ "__end__"

/-- The spec's transport contract: either entering fails, or the emitted
events are ordinary body events optionally terminated by a single final
`complete` (and a transport that completed does not raise afterwards). -/
def Conforming (t : TransportBehavior) : Prop :=
  t.enterResult ≠ none ∨
  ∃ body, (∀ e ∈ body, BodyEvent e) ∧
    (t.events = body ∨
      ∃ c, c.event = "complete" ∧ t.events = body ++ [c] ∧ t.iterError = none)


/-- The property claimed of the caller-visible sequence: a `complete`
event, if present, occurs only as the final yielded event (hence at most
once). -/
def CompleteOnlyAsFinal (l : List GeminiStreamEvent) : Prop :=
  ∀ i : Fin l.length, (l.get i).event = "complete" → (i : Nat) + 1 = l.length

/-- A minimal configuration with heartbeats disabled, as used by the
repository's own unit tests (`heartbeat_interval=0.0`). -/
def testConfig (mr : Int) : GeminiStreamConfig :=
  { api_key := "test-key", model := "models/test", heartbeat_interval := 0,
    max_retries := mr }

/-- Channels of a factory that returns an identically behaving transport
on every attempt. -/
def constChannels (t : TransportBehavior) : Nat → List GeminiStreamEvent :=
  fun _ => pumpOutput t

/-- A configuration with a strictly negative heartbeat interval. -/
def negativeHeartbeatConfig : GeminiStreamConfig :=
  { api_key := "test-key", model := "models/test", heartbeat_interval := -1 }

/-- The replay transport of the spec's no-failure scenario: chunks
`"Hello"` and `", world", then `complete`. -/
def helloTransport : TransportBehavior :=
  { events := [⟨"chunk", some "Hello"⟩, ⟨"chunk", some ", world"⟩, completeEvent] }

/-- A transport that yields chunk `"A"` and then fails mid-iteration. -/
def partialFailTransport : TransportBehavior :=
  { events := [⟨"chunk", some "A"⟩], iterError := some "mid-stream failure" }

/-- A transport that yields chunk `"B"` and then completes. -/
def recoveryTransport : TransportBehavior :=
  { events := [⟨"chunk", some "B"⟩, completeEvent] }

/-- An adversarial transport that emits `complete` and keeps emitting: the
orchestrator forwards all of it unchanged. -/
def nonFinalCompleteTransport : TransportBehavior :=
  { events := [completeEvent, ⟨"chunk", some "x"⟩] }

/-- The configuration of the repository's fail-over unit test
(`test_stream_failover_advances_to_fallback_endpoint`), minus the
`fallback_endpoints=("secondary",)` keyword it passes, which
`GeminiStreamConfig` does not even accept. -/
def failoverTestConfig : GeminiStreamConfig :=
  { api_key := "test-key", model := "models/test", endpoint := some "primary",
    heartbeat_interval := 0, max_retries := 2 }

/-- The attempt channels produced by that test's factory against the code
as written: the factory receives `factoryConfigAt` (always the unchanged
config, endpoint `"primary"`), so its first call fails on entry and every
later call returns a transport that echoes the `"primary"` endpoint it
was handed and completes. -/
def failoverTestChannels : Nat → List GeminiStreamEvent := fun i =>
  if i = 0 then pumpOutput (enterFailing "boom:primary")
  else pumpOutput { events := [⟨"chunk", some "primary"⟩, completeEvent] }

/-! ### Basic lemmas about interleavings and the attempt loop -/

theorem interleaving_nil_left (ys : List GeminiStreamEvent) : Interleaving [] ys ys := by
  induction ys with
  | nil => exact Interleaving.nil
  | cons a ys ih => exact Interleaving.right a ih

theorem interleaving_nil_middle {xs zs : List GeminiStreamEvent}
    (h : Interleaving xs [] zs) : zs = xs := by
  generalize hys : ([] : List GeminiStreamEvent) = ys at h
  induction h with
  | nil => rfl
  | left a h ih => rw [ih hys]
  | right a h ih => exact absurd hys (by simp)

theorem interleaving_mem {xs ys zs : List GeminiStreamEvent}
    (h : Interleaving xs ys zs) : ∀ e ∈ zs, e ∈ xs ∨ e ∈ ys := by
  induction h with
  | nil => intro e he; cases he
  | left a h ih =>
    intro e he
    rcases List.mem_cons.mp he with rfl | he
    · exact Or.inl (List.mem_cons_self _ _)
    · rcases ih e he with h1 | h2
      · exact Or.inl (List.mem_cons_of_mem _ h1)
      · exact Or.inr h2
  | right a h ih =>
    intro e he
    rcases List.mem_cons.mp he with rfl | he
    · exact Or.inr (List.mem_cons_self _ _)
    · rcases ih e he with h1 | h2
      · exact Or.inl h1
      · exact Or.inr (List.mem_cons_of_mem _ h2)

theorem interleaving_left_nil {ys zs : List GeminiStreamEvent}
    (h : Interleaving [] ys zs) : zs = ys := by
  generalize hxs : ([] : List GeminiStreamEvent) = xs at h
  induction h with
  | nil => rfl
  | left a h ih => exact absurd hxs (by simp)
  | right a h ih => rw [ih hxs]

theorem channelOf_no_heartbeat {cfg : GeminiStreamConfig} {t : TransportBehavior}
    {ch : List GeminiStreamEvent} (hch : ChannelOf cfg t ch)
    (hhb : cfg.heartbeat_interval ≤ 0) : ch = pumpOutput t := by
  obtain ⟨hbs, _, hint, hnil⟩ := hch
  rw [hnil hhb] at hint
  exact interleaving_left_nil hint

theorem runAttempt_cons_nonterminal {e : GeminiStreamEvent} (h1 : e.event ≠ "__end__")
    (h2 : e.event ≠ "error") (rest : List GeminiStreamEvent) :
    runAttempt (e :: rest) = (runAttempt rest).map (fun p => (e :: p.1, p.2)) := by
  simp [runAttempt, h1, h2]

theorem runAttempt_visible_nonterminal {ch ys : List GeminiStreamEvent} {o : AttemptOutcome}
    (h : runAttempt ch = some (ys, o)) :
    ∀ e ∈ ys, e.event ≠ "__end__" ∧ e.event ≠ "error" := by
  induction ch generalizing ys with
  | nil => simp [runAttempt] at h
  | cons a rest ih =>
    by_cases h1 : a.event = "__end__"
    · simp [runAttempt, h1] at h
      obtain ⟨rfl, rfl⟩ := h
      intro e he; cases he
    · by_cases h2 : a.event = "error"
      · simp [runAttempt, h1, h2] at h
        obtain ⟨rfl, rfl⟩ := h
        intro e he; cases he
      · rw [runAttempt_cons_nonterminal h1 h2] at h
        rcases Option.map_eq_some'.mp h with ⟨⟨ys0, o0⟩, hr, hf⟩
        simp only [Prod.mk.injEq] at hf
        obtain ⟨rfl, rfl⟩ := hf
        intro e he
        rcases List.mem_cons.mp he with rfl | he
        · exact ⟨h1, h2⟩
        · exact ih hr e he

theorem runAttempt_visible_mem {ch ys : List GeminiStreamEvent} {o : AttemptOutcome}
    (h : runAttempt ch = some (ys, o)) : ∀ e ∈ ys, e ∈ ch := by
  induction ch generalizing ys with
  | nil => simp [runAttempt] at h
  | cons a rest ih =>
    by_cases h1 : a.event = "__end__"
    · simp [runAttempt, h1] at h
      obtain ⟨rfl, rfl⟩ := h
      intro e he; cases he
    · by_cases h2 : a.event = "error"
      · simp [runAttempt, h1, h2] at h
        obtain ⟨rfl, rfl⟩ := h
        intro e he; cases he
      · rw [runAttempt_cons_nonterminal h1 h2] at h
        rcases Option.map_eq_some'.mp h with ⟨⟨ys0, o0⟩, hr, hf⟩
        simp only [Prod.mk.injEq] at hf
        obtain ⟨rfl, rfl⟩ := hf
        intro e he
        rcases List.mem_cons.mp he with rfl | he
        · exact List.mem_cons_self _ _
        · exact List.mem_cons_of_mem _ (ih hr e he)

/-- Merging heartbeat events into a channel never changes the outcome of
the attempt loop: it only inserts heartbeats among the yielded events. -/
theorem runAttempt_interleaving {hbs p ch : List GeminiStreamEvent}
    (hhb : AllHeartbeats hbs) (hint : Interleaving hbs p ch) :
    (runAttempt p = none → runAttempt ch = none) ∧
    ∀ ys o, runAttempt p = some (ys, o) →
      ∃ hbs2 ys2, AllHeartbeats hbs2 ∧ Interleaving hbs2 ys ys2 ∧
        runAttempt ch = some (ys2, o) := by
  induction hint with
  | nil =>
    refine ⟨fun h => h, fun ys o h => ?_⟩
    simp [runAttempt] at h
  | @left xs ys zs a h ih =>
    have ha : a = heartbeatEvent := hhb a (List.mem_cons_self a xs)
    have hhb' : AllHeartbeats xs := fun e he => hhb e (List.mem_cons_of_mem a he)
    obtain ⟨ih1, ih2⟩ := ih hhb'
    have h1 : a.event ≠ "__end__" := by rw [ha]; decide
    have h2 : a.event ≠ "error" := by rw [ha]; decide
    constructor
    · intro hp
      rw [runAttempt_cons_nonterminal h1 h2, ih1 hp]
      rfl
    · intro ys1 o hp
      obtain ⟨hbs2, ys2, hb2, hi2, hr2⟩ := ih2 ys1 o hp
      refine ⟨a :: hbs2, a :: ys2, ?_, Interleaving.left a hi2, ?_⟩
      · intro e he
        rcases List.mem_cons.mp he with rfl | he
        · exact ha
        · exact hb2 e he
      · rw [runAttempt_cons_nonterminal h1 h2, hr2]
        rfl
  | @right xs ys zs a h ih =>
    obtain ⟨ih1, ih2⟩ := ih hhb
    by_cases h1 : a.event = "__end__"
    · constructor
      · intro hp
        simp [runAttempt, h1] at hp
      · intro ys1 o hp
        simp only [runAttempt, h1, if_pos] at hp
        simp only [Option.some.injEq, Prod.mk.injEq] at hp
        obtain ⟨rfl, rfl⟩ := hp
        refine ⟨[], [], fun e he => absurd he (List.not_mem_nil e), Interleaving.nil, ?_⟩
        simp [runAttempt, h1]
    · by_cases h2 : a.event = "error"
      · constructor
        · intro hp
          simp [runAttempt, h1, h2] at hp
        · intro ys1 o hp
          simp only [runAttempt, h1, h2] at hp
          simp only [if_neg, if_pos, Option.some.injEq, Prod.mk.injEq, reduceIte] at hp
          obtain ⟨rfl, rfl⟩ := hp
          refine ⟨[], [], fun e he => absurd he (List.not_mem_nil e), Interleaving.nil, ?_⟩
          simp [runAttempt, h1, h2]
      · constructor
        · intro hp
          rw [runAttempt_cons_nonterminal h1 h2] at hp ⊢
          rw [ih1 (Option.map_eq_none'.mp hp)]
          rfl
        · intro ys1 o hp
          rw [runAttempt_cons_nonterminal h1 h2] at hp
          rcases Option.map_eq_some'.mp hp with ⟨⟨ys0, o0⟩, hr, hf⟩
          simp only [Prod.mk.injEq] at hf
          obtain ⟨rfl, rfl⟩ := hf
          obtain ⟨hbs2, ys2, hb2, hi2, hr2⟩ := ih2 ys0 o0 hr
          refine ⟨hbs2, a :: ys2, hb2, Interleaving.right a hi2, ?_⟩
          rw [runAttempt_cons_nonterminal h1 h2, hr2]
          rfl

/-! ### Lemmas about the retry loop -/

theorem streamGo_succ_elim {cfg : GeminiStreamConfig} {channels : Nat → List GeminiStreamEvent}
    {n a : Nat} {tr : StreamTrace} (h : streamGo cfg channels (n + 1) a = some tr) :
    (∃ ys, runAttempt (channels a) = some (ys, AttemptOutcome.success) ∧
       tr = ⟨ys, 1, [], none⟩) ∨
    (∃ ys t, runAttempt (channels a) = some (ys, AttemptOutcome.failure t) ∧
       (a : Int) ≥ cfg.max_retries ∧ tr = ⟨ys, 1, [], some (lastErrorMessage t)⟩) ∨
    (∃ ys t tr2, runAttempt (channels a) = some (ys, AttemptOutcome.failure t) ∧
       ¬ (a : Int) ≥ cfg.max_retries ∧ streamGo cfg channels n (a + 1) = some tr2 ∧
       tr = ⟨ys ++ tr2.visible, tr2.attemptsMade + 1,
         min (cfg.backoff_base * 2 ^ (a + 1 - 1)) cfg.backoff_max :: tr2.delays,
         tr2.raised⟩) := by
  rw [streamGo] at h
  split at h
  · cases h
  · rename_i ys heq
    injection h with h2
    exact Or.inl ⟨ys, heq, h2.symm⟩
  · rename_i ys t heq
    split at h
    · rename_i hge
      injection h with h2
      exact Or.inr (Or.inl ⟨ys, t, heq, hge, h2.symm⟩)
    · rename_i hge
      split at h
      · cases h
      · rename_i tr2 hrec
        injection h with h2
        exact Or.inr (Or.inr ⟨ys, t, tr2, heq, hge, hrec, h2.symm⟩)

theorem streamGo_visible_mem {cfg : GeminiStreamConfig}
    {channels : Nat → List GeminiStreamEvent} :
    ∀ {fuel a tr}, streamGo cfg channels fuel a = some tr →
      ∀ e ∈ tr.visible, ∃ i, a ≤ i ∧ e ∈ channels i := by
  intro fuel
  induction fuel with
  | zero => intro a tr h; simp [streamGo] at h
  | succ n ih =>
    intro a tr h
    rcases streamGo_succ_elim h with ⟨ys, hra, rfl⟩ | ⟨ys, t, hra, _, rfl⟩ |
      ⟨ys, t, tr2, hra, _, hrec, rfl⟩
    · intro e he
      exact ⟨a, le_refl a, runAttempt_visible_mem hra e he⟩
    · intro e he
      exact ⟨a, le_refl a, runAttempt_visible_mem hra e he⟩
    · intro e he
      rcases List.mem_append.mp he with h1 | h2
      · exact ⟨a, le_refl a, runAttempt_visible_mem hra e h1⟩
      · obtain ⟨i, hi, hmem⟩ := ih hrec e h2
        exact ⟨i, by omega, hmem⟩

theorem streamGo_visible_nonterminal {cfg : GeminiStreamConfig}
    {channels : Nat → List GeminiStreamEvent} :
    ∀ {fuel a tr}, streamGo cfg channels fuel a = some tr →
      ∀ e ∈ tr.visible, e.event ≠ "__end__" ∧ e.event ≠ "error" := by
  intro fuel
  induction fuel with
  | zero => intro a tr h; simp [streamGo] at h
  | succ n ih =>
    intro a tr h
    rcases streamGo_succ_elim h with ⟨ys, hra, rfl⟩ | ⟨ys, t, hra, _, rfl⟩ |
      ⟨ys, t, tr2, hra, _, hrec, rfl⟩
    · exact runAttempt_visible_nonterminal hra
    · exact runAttempt_visible_nonterminal hra
    · intro e he
      rcases List.mem_append.mp he with h1 | h2
      · exact runAttempt_visible_nonterminal hra e h1
      · exact ih hrec e h2

/-- When every attempt fails and only yields heartbeats, the retry loop
runs exactly until the budget check trips, yields only heartbeats and
raises. -/
theorem streamGo_all_fail {cfg : GeminiStreamConfig}
    {channels : Nat → List GeminiStreamEvent}
    (hfail : ∀ i, ∃ ys t, runAttempt (channels i) = some (ys, AttemptOutcome.failure t) ∧
      AllHeartbeats ys) :
    ∀ (fuel a : Nat), fuel = (cfg.max_retries - (a : Int)).toNat + 1 →
      ∃ tr, streamGo cfg channels fuel a = some tr ∧ tr.attemptsMade = fuel ∧
        AllHeartbeats tr.visible ∧ tr.raised.isSome := by
  intro fuel
  induction fuel with
  | zero => intro a h; omega
  | succ n ih =>
    intro a hfuel
    obtain ⟨ys, t, hra, hhb⟩ := hfail a
    by_cases hge : (a : Int) ≥ cfg.max_retries
    · have hn : n = 0 := by omega
      subst hn
      refine ⟨⟨ys, 1, [], some (lastErrorMessage t)⟩, ?_, rfl, hhb, rfl⟩
      simp only [streamGo, hra, if_pos hge]
    · have hn : n = (cfg.max_retries - ((a : Int) + 1)).toNat + 1 := by omega
      have hn2 : n = (cfg.max_retries - ((a + 1 : Nat) : Int)).toNat + 1 := by
        rw [hn]; norm_num
      obtain ⟨tr2, hrec, hcount, hvis, hraised⟩ := ih (a + 1) hn2
      refine ⟨⟨ys ++ tr2.visible, tr2.attemptsMade + 1,
        min (cfg.backoff_base * 2 ^ (a + 1 - 1)) cfg.backoff_max :: tr2.delays,
        tr2.raised⟩, ?_, by simp [hcount], ?_, hraised⟩
      · simp only [streamGo, hra, if_neg hge, hrec]
      · intro e he
        rcases List.mem_append.mp he with h1 | h2
        · exact hhb e h1
        · exact hvis e h2

/-- When the retry loop raises, the raise happens exactly when the budget
check first trips, every attempt on the way failed, and the carried
message comes from the final attempt's error. -/
theorem streamGo_raised {cfg : GeminiStreamConfig}
    {channels : Nat → List GeminiStreamEvent} :
    ∀ {fuel a : Nat} {tr m}, streamGo cfg channels fuel a = some tr →
      tr.raised = some m →
      tr.attemptsMade = (cfg.max_retries - (a : Int)).toNat + 1 ∧
      (∀ j, a ≤ j → j < a + tr.attemptsMade →
        ∃ ys t, runAttempt (channels j) = some (ys, AttemptOutcome.failure t)) ∧
      ∃ ys t, runAttempt (channels (a + tr.attemptsMade - 1)) =
          some (ys, AttemptOutcome.failure t) ∧ m = lastErrorMessage t := by
  intro fuel
  induction fuel with
  | zero => intro a tr m h; simp [streamGo] at h
  | succ n ih =>
    intro a tr m h hm
    rcases streamGo_succ_elim h with ⟨ys, hra, rfl⟩ | ⟨ys, t, hra, hge, rfl⟩ |
      ⟨ys, t, tr2, hra, hge, hrec, rfl⟩
    · cases hm
    · have hm2 : m = lastErrorMessage t := by
        injection hm with hm2
        exact hm2.symm
      refine ⟨show 1 = _ by omega, ?_, ys, t, ?_, hm2⟩
      · intro j hj1 hj2
        have hj3 : j < a + 1 := hj2
        have : j = a := by omega
        subst this
        exact ⟨ys, t, hra⟩
      · show runAttempt (channels (a + 1 - 1)) = _
        have : a + 1 - 1 = a := by omega
        rw [this]
        exact hra
    · obtain ⟨hcount, hall, ys2, t2, hra2, hm2⟩ := ih hrec hm
      refine ⟨show tr2.attemptsMade + 1 = _ by omega, ?_, ys2, t2, ?_, hm2⟩
      · intro j hj1 hj2
        have hj3 : j < a + (tr2.attemptsMade + 1) := hj2
        rcases Nat.eq_or_lt_of_le hj1 with rfl | hlt
        · exact ⟨ys, t, hra⟩
        · exact hall j hlt (by omega)
      · show runAttempt (channels (a + (tr2.attemptsMade + 1) - 1)) = _
        have : a + (tr2.attemptsMade + 1) - 1 = a + 1 + tr2.attemptsMade - 1 := by omega
        rw [this]
        exact hra2

/-- The i-th recorded backoff delay (counting from the loop's starting
attempt `a`) is `min(backoff_base * 2 ^ (a + i), backoff_max)`. -/
theorem streamGo_delays {cfg : GeminiStreamConfig}
    {channels : Nat → List GeminiStreamEvent} :
    ∀ {fuel a : Nat} {tr}, streamGo cfg channels fuel a = some tr →
      ∀ i (hi : i < tr.delays.length),
        tr.delays.get ⟨i, hi⟩ = min (cfg.backoff_base * 2 ^ (a + i)) cfg.backoff_max := by
  intro fuel
  induction fuel with
  | zero => intro a tr h; simp [streamGo] at h
  | succ n ih =>
    intro a tr h
    rcases streamGo_succ_elim h with ⟨ys, hra, rfl⟩ | ⟨ys, t, hra, hge, rfl⟩ |
      ⟨ys, t, tr2, hra, hge, hrec, rfl⟩
    · intro i hi
      simp at hi
    · intro i hi
      simp at hi
    · intro i hi
      cases i with
      | zero =>
        show min (cfg.backoff_base * 2 ^ (a + 1 - 1)) cfg.backoff_max = _
        norm_num
      | succ j =>
        have hj : j < tr2.delays.length := by
          simpa using hi
        have hih := ih hrec j hj
        show tr2.delays.get ⟨j, _⟩ = _
        rw [hih]
        have : a + 1 + j = a + (j + 1) := by omega
        rw [this]

/-! ### Placement of `complete` in the caller-visible sequence -/

theorem runAttempt_error_cons (msg : String) (rest : List GeminiStreamEvent) :
    runAttempt (errorEvent msg :: rest) = some ([], AttemptOutcome.failure (some msg)) := rfl

theorem runAttempt_end_cons (rest : List GeminiStreamEvent) :
    runAttempt (endEvent :: rest) = some ([], AttemptOutcome.success) := rfl

theorem runAttempt_append_nonterminal {xs : List GeminiStreamEvent}
    (hxs : ∀ e ∈ xs, e.event ≠ "__end__" ∧ e.event ≠ "error")
    (rest : List GeminiStreamEvent) :
    runAttempt (xs ++ rest) = (runAttempt rest).map (fun p => (xs ++ p.1, p.2)) := by
  induction xs with
  | nil =>
    cases hr : runAttempt rest <;> simp [hr]
  | cons a xs ih =>
    obtain ⟨h1, h2⟩ := hxs a (List.mem_cons_self a xs)
    rw [List.cons_append, runAttempt_cons_nonterminal h1 h2,
      ih (fun e he => hxs e (List.mem_cons_of_mem a he))]
    cases runAttempt rest <;> rfl

theorem runAttempt_pump_body_error {body : List GeminiStreamEvent}
    (hbody : ∀ e ∈ body, e.event ≠ "__end__" ∧ e.event ≠ "error") (msg : String) :
    runAttempt (body ++ [errorEvent msg, endEvent]) =
      some (body, AttemptOutcome.failure (some msg)) := by
  rw [runAttempt_append_nonterminal hbody, runAttempt_error_cons]
  simp

theorem runAttempt_pump_body_end {body : List GeminiStreamEvent}
    (hbody : ∀ e ∈ body, e.event ≠ "__end__" ∧ e.event ≠ "error") :
    runAttempt (body ++ [endEvent]) = some (body, AttemptOutcome.success) := by
  have : (body ++ [endEvent]) = body ++ (endEvent :: []) := rfl
  rw [this, runAttempt_append_nonterminal hbody, runAttempt_end_cons]
  simp

/-- Splitting an interleaving whose right component ends in a marked
element: everything after that element in the merge comes from the left
component. -/
theorem interleaving_split_last {c : GeminiStreamEvent} {hbs ys zs : List GeminiStreamEvent}
    (h : Interleaving hbs ys zs) :
    ∀ {xs}, ys = xs ++ [c] →
      ∃ hbs1 hbs2 pre, hbs = hbs1 ++ hbs2 ∧ zs = pre ++ c :: hbs2 ∧
        Interleaving hbs1 xs pre := by
  induction h with
  | nil => intro xs hxs; exact absurd hxs.symm (by simp)
  | left a h ih =>
    intro xs hxs
    obtain ⟨hbs1, hbs2, pre, rfl, rfl, hint⟩ := ih hxs
    exact ⟨a :: hbs1, hbs2, a :: pre, rfl, rfl, Interleaving.left a hint⟩
  | right a h ih =>
    intro xs hxs
    cases xs with
    | nil =>
      simp only [List.nil_append, List.cons.injEq] at hxs
      obtain ⟨rfl, rfl⟩ := hxs
      have hz := interleaving_nil_middle h
      subst hz
      exact ⟨[], _, [], rfl, rfl, Interleaving.nil⟩
    | cons x xs =>
      simp only [List.cons_append, List.cons.injEq] at hxs
      obtain ⟨rfl, hys⟩ := hxs
      obtain ⟨hbs1, hbs2, pre, rfl, rfl, hint⟩ := ih hys
      exact ⟨hbs1, hbs2, a :: pre, rfl, rfl, Interleaving.right a hint⟩

theorem heartbeat_not_complete {e : GeminiStreamEvent} (h : e = heartbeatEvent) :
    e.event ≠ "complete" := by
  rw [h]; decide

/-- One attempt of a conforming transport either fails having yielded no
`complete`, or succeeds with a caller-visible part in which `complete` is
only followed by heartbeats. -/
theorem attempt_analysis {cfg : GeminiStreamConfig} {t : TransportBehavior}
    {ch : List GeminiStreamEvent} (hconf : Conforming t) (hch : ChannelOf cfg t ch) :
    (∃ ys msg, runAttempt ch = some (ys, AttemptOutcome.failure msg) ∧ NoComplete ys) ∨
    (∃ ys, runAttempt ch = some (ys, AttemptOutcome.success) ∧ GoodVisible ys) := by
  obtain ⟨hbs, hhb, hint, -⟩ := hch
  obtain ⟨-, mlem⟩ := runAttempt_interleaving hhb hint
  cases henter : t.enterResult with
  | some msg =>
    have hp : pumpOutput t = [errorEvent msg, endEvent] := by
      simp [pumpOutput, henter]
    have hrp : runAttempt (pumpOutput t) = some ([], AttemptOutcome.failure (some msg)) := by
      rw [hp]; exact runAttempt_error_cons msg [endEvent]
    obtain ⟨hbs2, ys2, hb2, hi2, hr2⟩ := mlem [] _ hrp
    have hys2 : ys2 = hbs2 := interleaving_nil_middle hi2
    refine Or.inl ⟨ys2, some msg, hr2, fun e he => ?_⟩
    exact heartbeat_not_complete (hb2 e (hys2 ▸ he))
  | none =>
    rcases hconf with hc | ⟨body, hbody, hev⟩
    · exact absurd henter hc
    · have hbody2 : ∀ e ∈ body, e.event ≠ "__end__" ∧ e.event ≠ "error" :=
        fun e he => ⟨(hbody e he).2.2, (hbody e he).2.1⟩
      rcases hev with hev | ⟨c, hc, hev, hiter⟩
      · cases hiter : t.iterError with
        | some msg =>
          have hp : pumpOutput t = body ++ [errorEvent msg, endEvent] := by
            simp [pumpOutput, henter, hiter, hev]
          have hrp := runAttempt_pump_body_error hbody2 msg
          rw [← hp] at hrp
          obtain ⟨hbs2, ys2, hb2, hi2, hr2⟩ := mlem _ _ hrp
          refine Or.inl ⟨ys2, some msg, hr2, fun e he => ?_⟩
          rcases interleaving_mem hi2 e he with h1 | h2
          · exact heartbeat_not_complete (hb2 e h1)
          · exact (hbody e h2).1
        | none =>
          have hp : pumpOutput t = body ++ [endEvent] := by
            simp [pumpOutput, henter, hiter, hev]
          have hrp := runAttempt_pump_body_end hbody2
          rw [← hp] at hrp
          obtain ⟨hbs2, ys2, hb2, hi2, hr2⟩ := mlem _ _ hrp
          refine Or.inr ⟨ys2, hr2, Or.inl fun e he => ?_⟩
          rcases interleaving_mem hi2 e he with h1 | h2
          · exact heartbeat_not_complete (hb2 e h1)
          · exact (hbody e h2).1
      · have hbc : ∀ e ∈ body ++ [c], e.event ≠ "__end__" ∧ e.event ≠ "error" := by
          intro e he
          rcases List.mem_append.mp he with h1 | h1
          · exact hbody2 e h1
          · rcases List.mem_singleton.mp h1 with rfl
            constructor <;> (rw [hc]; decide)
        have hp : pumpOutput t = (body ++ [c]) ++ [endEvent] := by
          simp [pumpOutput, henter, hiter, hev]
        have hrp := runAttempt_pump_body_end hbc
        rw [← hp] at hrp
        obtain ⟨hbs2, ys2, hb2, hi2, hr2⟩ := mlem _ _ hrp
        obtain ⟨h1, h2, pre, rfl, rfl, hint2⟩ := interleaving_split_last hi2 rfl
        refine Or.inr ⟨_, hr2, Or.inr ⟨pre, c, h2, rfl, hc, ?_, ?_⟩⟩
        · intro e he
          rcases interleaving_mem hint2 e he with hm | hm
          · exact heartbeat_not_complete (hb2 e (List.mem_append_left _ hm))
          · exact (hbody e hm).1
        · exact fun e he => hb2 e (List.mem_append_right _ he)

theorem noComplete_append_goodVisible {xs ys : List GeminiStreamEvent}
    (hx : NoComplete xs) (hy : GoodVisible ys) : GoodVisible (xs ++ ys) := by
  rcases hy with hy | ⟨pre, c, post, rfl, hc, hpre, hpost⟩
  · left
    intro e he
    rcases List.mem_append.mp he with h | h
    · exact hx e h
    · exact hy e h
  · right
    refine ⟨xs ++ pre, c, post, by simp, hc, fun e he => ?_, hpost⟩
    rcases List.mem_append.mp he with h | h
    · exact hx e h
    · exact hpre e h

/-- Across the whole retry loop with conforming transports, the
caller-visible sequence has a `complete` only followed by heartbeats. -/
theorem streamGo_goodVisible {cfg : GeminiStreamConfig} {behs : Nat → TransportBehavior}
    {channels : Nat → List GeminiStreamEvent}
    (hch : ∀ i, ChannelOf cfg (behs i) (channels i))
    (hconf : ∀ i, Conforming (behs i)) :
    ∀ {fuel a tr}, streamGo cfg channels fuel a = some tr → GoodVisible tr.visible := by
  intro fuel
  induction fuel with
  | zero => intro a tr h; simp [streamGo] at h
  | succ n ih =>
    intro a tr h
    rcases streamGo_succ_elim h with ⟨ys, hra, rfl⟩ | ⟨ys, t, hra, _, rfl⟩ |
      ⟨ys, t, tr2, hra, _, hrec, rfl⟩
    · rcases attempt_analysis (hconf a) (hch a) with ⟨ys2, msg, hr2, -⟩ | ⟨ys2, hr2, hg⟩
      · rw [hra] at hr2
        simp at hr2
      · rw [hra] at hr2
        simp only [Option.some.injEq, Prod.mk.injEq] at hr2
        obtain ⟨rfl, -⟩ := hr2
        exact hg
    · rcases attempt_analysis (hconf a) (hch a) with ⟨ys2, msg, hr2, hnc⟩ | ⟨ys2, hr2, -⟩
      · rw [hra] at hr2
        simp only [Option.some.injEq, Prod.mk.injEq] at hr2
        obtain ⟨rfl, -⟩ := hr2
        exact Or.inl hnc
      · rw [hra] at hr2
        simp at hr2
    · rcases attempt_analysis (hconf a) (hch a) with ⟨ys2, msg, hr2, hnc⟩ | ⟨ys2, hr2, -⟩
      · rw [hra] at hr2
        simp only [Option.some.injEq, Prod.mk.injEq] at hr2
        obtain ⟨rfl, -⟩ := hr2
        exact noComplete_append_goodVisible hnc (ih hrec)
      · rw [hra] at hr2
        simp at hr2

/-! ### Further helper lemmas -/

theorem channelOf_pump (cfg : GeminiStreamConfig) (t : TransportBehavior) :
    ChannelOf cfg t (pumpOutput t) :=
  ⟨[], fun e he => absurd he (List.not_mem_nil e), interleaving_nil_left _,
    fun _ => rfl⟩

theorem channelOf_enterFailing_fail {cfg : GeminiStreamConfig} {msg : String}
    {ch : List GeminiStreamEvent} (hch : ChannelOf cfg (enterFailing msg) ch) :
    ∃ ys, runAttempt ch = some (ys, AttemptOutcome.failure (some msg)) ∧
      AllHeartbeats ys := by
  obtain ⟨hbs, hhb, hint, -⟩ := hch
  obtain ⟨-, mlem⟩ := runAttempt_interleaving hhb hint
  have hrp : runAttempt (pumpOutput (enterFailing msg)) =
      some ([], AttemptOutcome.failure (some msg)) :=
    runAttempt_error_cons msg [endEvent]
  obtain ⟨hbs2, ys2, hb2, hi2, hr2⟩ := mlem _ _ hrp
  have h3 : ys2 = hbs2 := interleaving_nil_middle hi2
  subst h3
  exact ⟨ys2, hr2, hb2⟩

theorem push_heartbeat (a : GeminiTextAccumulator) {e : GeminiStreamEvent}
    (h : e = heartbeatEvent) : a.push e = a := by
  rw [h]
  rfl

theorem foldl_push_interleaving {hbs evs merged : List GeminiStreamEvent}
    (hhb : AllHeartbeats hbs) (hint : Interleaving hbs evs merged) :
    ∀ a : GeminiTextAccumulator,
      merged.foldl GeminiTextAccumulator.push a =
        evs.foldl GeminiTextAccumulator.push a := by
  induction hint with
  | nil => intro a; rfl
  | left e h ih =>
    intro a
    have he : e = heartbeatEvent := hhb e (List.mem_cons_self ..)
    have hhb2 : AllHeartbeats _ := fun x hx => hhb x (List.mem_cons_of_mem e hx)
    simp only [List.foldl_cons]
    rw [push_heartbeat a he]
    exact ih hhb2 a
  | right e h ih =>
    intro a
    simp only [List.foldl_cons]
    exact ih hhb (a.push e)

theorem googleBehavior_no_heartbeat (chunks : List String) (failure : Option String) :
    ∀ e ∈ pumpOutput (googleBehavior chunks failure), e.event ≠ "heartbeat" := by
  intro e he
  simp only [pumpOutput, googleBehavior, googleStreamEvents] at he
  rcases List.mem_append.mp he with h1 | h1
  · rcases List.mem_append.mp h1 with h2 | h2
    · rcases List.mem_append.mp h2 with h3 | h3
      · obtain ⟨t, -, rfl⟩ := List.mem_map.mp h3
        show ("chunk" : String) ≠ "heartbeat"
        decide
      · cases failure with
        | none =>
          rcases List.mem_singleton.mp h3 with rfl
          decide
        | some msg =>
          rcases List.mem_singleton.mp h3 with rfl
          show ("error" : String) ≠ "heartbeat"
          decide
    · cases h2
  · rcases List.mem_singleton.mp h1 with rfl
    decide

/-! ### Claim theorems -/

/-- C1 (the code evaluated at the repository's own fail-over scenario,
`test_stream_failover_advances_to_fallback_endpoint`): `stream` passes the
unchanged configuration to the transport factory on every attempt, so
attempt 1 is still built with endpoint `"primary"` — not the
`endpoints[min(1, n-1)] = "secondary"` the claim and the test require —
and the caller-visible chunk is `"primary"`, not `"secondary"`.  The
`GeminiStreamConfig` dataclass has no `fallback_endpoints` field at all. -/
theorem c1_no_endpoint_failover :
    (∀ i, factoryConfigAt failoverTestConfig i = failoverTestConfig) ∧
    (factoryConfigAt failoverTestConfig 1).endpoint = some "primary" ∧
    (factoryConfigAt failoverTestConfig 1).endpoint ≠ some "secondary" ∧
    ∃ tr, streamRun failoverTestConfig failoverTestChannels = some tr ∧
      tr.visible = [⟨"chunk", some "primary"⟩, completeEvent] ∧
      tr.attemptsMade = 2 ∧ tr.raised = none :=
  ⟨fun _ => rfl, rfl, by decide,
    ⟨⟨[⟨"chunk", some "primary"⟩, completeEvent], 2,
      [min (failoverTestConfig.backoff_base * 2 ^ (0 + 1 - 1))
        failoverTestConfig.backoff_max], none⟩, rfl, rfl, rfl, rfl⟩⟩

/-- C2: for every configuration with `max_retries = m ≥ 0` and every
transport whose `enter()` always fails, `stream` makes exactly `m + 1`
attempts — an `enter` failure being pumped into the queue exactly like an
immediately emitted `error` event — forwards zero chunk events to the
caller, and raises `GeminiStreamError`. -/
theorem c2_retry_exhaustion (cfg : GeminiStreamConfig) (hm : 0 ≤ cfg.max_retries)
    (msgs : Nat → String) (channels : Nat → List GeminiStreamEvent)
    (hch : ∀ i, ChannelOf cfg (enterFailing (msgs i)) (channels i)) :
    (∃ tr, streamRun cfg channels = some tr ∧
      (tr.attemptsMade : Int) = cfg.max_retries + 1 ∧
      (∀ e ∈ tr.visible, e.event ≠ "chunk") ∧ tr.raised.isSome) ∧
    ∀ msg, pumpOutput (enterFailing msg) = pumpOutput (immediateError msg) := by
  constructor
  · have hfail : ∀ i, ∃ ys t, runAttempt (channels i) =
        some (ys, AttemptOutcome.failure t) ∧ AllHeartbeats ys := by
      intro i
      obtain ⟨ys, hr, hhb⟩ := channelOf_enterFailing_fail (hch i)
      exact ⟨ys, some (msgs i), hr, hhb⟩
    have hfuel : cfg.max_retries.toNat + 1 =
        (cfg.max_retries - ((0 : Nat) : Int)).toNat + 1 := by omega
    obtain ⟨tr, htr, hcount, hvis, hraised⟩ :=
      streamGo_all_fail hfail (cfg.max_retries.toNat + 1) 0 hfuel
    refine ⟨tr, htr, by omega, fun e he => ?_, hraised⟩
    rw [hvis e he]
    decide
  · intro msg
    rfl

/-- C3: the delay slept before the i-th retry (0-based) is
`min(backoff_base * 2 ^ i, backoff_max)`. -/
theorem c3_backoff_law (cfg : GeminiStreamConfig)
    (channels : Nat → List GeminiStreamEvent) (tr : StreamTrace)
    (h : streamRun cfg channels = some tr) (i : Nat) (hi : i < tr.delays.length) :
    tr.delays.get ⟨i, hi⟩ = min (cfg.backoff_base * 2 ^ i) cfg.backoff_max := by
  have hd := streamGo_delays h i hi
  simpa using hd

/-- C4 counterexample: the claim fails as stated — `stream` does not treat
`complete` specially, so a transport that emits `complete` followed by a
chunk makes the caller-visible sequence `[complete, chunk "x"]`, in which
`complete` is not the final yielded event. -/
theorem c4_counterexample :
    streamRun (testConfig 3) (constChannels nonFinalCompleteTransport) =
      some ⟨[completeEvent, ⟨"chunk", some "x"⟩], 1, [], none⟩ ∧
    ¬ CompleteOnlyAsFinal [completeEvent, ⟨"chunk", some "x"⟩] := by
  refine ⟨by decide, fun h => ?_⟩
  exact absurd (h ⟨0, by decide⟩ rfl) (by decide)

/-- C4 (amended): the caller-visible sequence never contains an `error`
event or the `"__end__"` sentinel; and when every attempt's transport
conforms to the spec's transport contract (body events with at most one
final `complete`, none after a failure), a yielded `complete` can only be
followed by heartbeat events — hence occurs at most once, and is final
whenever heartbeats are disabled. -/
theorem c4_amended (cfg : GeminiStreamConfig) (behs : Nat → TransportBehavior)
    (channels : Nat → List GeminiStreamEvent)
    (hch : ∀ i, ChannelOf cfg (behs i) (channels i))
    (tr : StreamTrace) (h : streamRun cfg channels = some tr) :
    (∀ e ∈ tr.visible, e.event ≠ "error" ∧ e.event ≠ "__end__") ∧
    ((∀ i, Conforming (behs i)) → GoodVisible tr.visible) := by
  constructor
  · intro e he
    obtain ⟨h1, h2⟩ := streamGo_visible_nonterminal h e he
    exact ⟨h2, h1⟩
  · intro hconf
    exact streamGo_goodVisible hch hconf h

/-- C5 counterexample: the claim fails as stated — when the last error
event carries an empty text (here `enter()` raising an exception whose
`str` is `""`), the raised `GeminiStreamError`'s cause does not carry that
text but the substituted placeholder `"Unknown Gemini error"` (source line
274: `event.text or "Unknown Gemini error"`). -/
theorem c5_counterexample :
    runAttempt (constChannels (enterFailing "") 0) =
      some ([], AttemptOutcome.failure (some "")) ∧
    streamRun (testConfig 0) (constChannels (enterFailing "")) =
      some ⟨[], 1, [], some "Unknown Gemini error"⟩ ∧
    ("Unknown Gemini error" : String) ≠ "" :=
  ⟨by decide, by decide, by decide⟩

/-- C5 (amended): when `stream` raises, the raise happens only once the
full retry budget is exhausted — after exactly `max_retries.toNat + 1`
attempts, all of which failed — and the carried message is the final
attempt's error text when that text is non-empty, and the placeholder
`"Unknown Gemini error"` otherwise (`lastErrorMessage`). -/
theorem c5_amended (cfg : GeminiStreamConfig)
    (channels : Nat → List GeminiStreamEvent) (tr : StreamTrace) (m : String)
    (h : streamRun cfg channels = some tr) (hm : tr.raised = some m) :
    tr.attemptsMade = cfg.max_retries.toNat + 1 ∧
    (∀ j < tr.attemptsMade, ∃ ys t, runAttempt (channels j) =
      some (ys, AttemptOutcome.failure t)) ∧
    ∃ ys t, runAttempt (channels (tr.attemptsMade - 1)) =
      some (ys, AttemptOutcome.failure t) ∧ m = lastErrorMessage t := by
  obtain ⟨h1, h2, h3⟩ := streamGo_raised h hm
  refine ⟨by omega, fun j hj => h2 j (by omega) (by omega), ?_⟩
  simpa using h3

/-- C6: with heartbeats disabled (as in the repository's own test) and a
transport that emits chunks `"Hello"` and `", world"` and then completes,
`stream` yields exactly `[chunk "Hello", chunk ", world", complete]`, no
error event and no exception, and an accumulator fed every yielded event
produces `"Hello, world"`. -/
theorem c6_success_stream (cfg : GeminiStreamConfig)
    (hhb : cfg.heartbeat_interval ≤ 0) (channels : Nat → List GeminiStreamEvent)
    (hch : ∀ i, ChannelOf cfg helloTransport (channels i)) :
    ∃ tr, streamRun cfg channels = some tr ∧
      tr.visible = [⟨"chunk", some "Hello"⟩, ⟨"chunk", some ", world"⟩, completeEvent] ∧
      tr.attemptsMade = 1 ∧ tr.raised = none ∧
      (accumulate tr.visible).text = "Hello, world" := by
  have h0 : channels 0 = pumpOutput helloTransport := channelOf_no_heartbeat (hch 0) hhb
  have hra : runAttempt (channels 0) =
      some ([⟨"chunk", some "Hello"⟩, ⟨"chunk", some ", world"⟩, completeEvent],
        AttemptOutcome.success) := by
    rw [h0]; rfl
  refine ⟨⟨[⟨"chunk", some "Hello"⟩, ⟨"chunk", some ", world"⟩, completeEvent],
    1, [], none⟩, ?_, rfl, rfl, rfl, by decide⟩
  show streamGo cfg channels (cfg.max_retries.toNat + 1) 0 = _
  simp only [streamGo, hra]

/-- C7: with heartbeats disabled and at least one retry available, if the
first attempt yields chunk `"A"` and then fails and the second attempt
yields chunk `"B"` and then completes, the full caller-visible sequence is
exactly `[chunk "A", chunk "B", complete]` with no exception: the chunk
delivered by the failed attempt is kept and only its error is
suppressed. -/
theorem c7_partial_chunks_kept (cfg : GeminiStreamConfig)
    (hhb : cfg.heartbeat_interval ≤ 0) (hmr : 1 ≤ cfg.max_retries)
    (channels : Nat → List GeminiStreamEvent)
    (hch0 : ChannelOf cfg partialFailTransport (channels 0))
    (hch1 : ChannelOf cfg recoveryTransport (channels 1)) :
    ∃ tr, streamRun cfg channels = some tr ∧
      tr.visible = [⟨"chunk", some "A"⟩, ⟨"chunk", some "B"⟩, completeEvent] ∧
      tr.attemptsMade = 2 ∧ tr.raised = none := by
  have h0 : channels 0 = pumpOutput partialFailTransport :=
    channelOf_no_heartbeat hch0 hhb
  have h1 : channels 1 = pumpOutput recoveryTransport :=
    channelOf_no_heartbeat hch1 hhb
  have hra0 : runAttempt (channels 0) = some ([⟨"chunk", some "A"⟩],
      AttemptOutcome.failure (some "mid-stream failure")) := by
    rw [h0]; rfl
  have hra1 : runAttempt (channels 1) =
      some ([⟨"chunk", some "B"⟩, completeEvent], AttemptOutcome.success) := by
    rw [h1]; rfl
  obtain ⟨k, hk⟩ : ∃ k, cfg.max_retries.toNat = k + 1 :=
    ⟨cfg.max_retries.toNat - 1, by omega⟩
  have hlt : ¬ ((0 : Nat) : Int) ≥ cfg.max_retries := by
    simp only [ge_iff_le, not_le]
    omega
  refine ⟨⟨[⟨"chunk", some "A"⟩] ++ [⟨"chunk", some "B"⟩, completeEvent], 1 + 1,
    [min (cfg.backoff_base * 2 ^ (0 + 1 - 1)) cfg.backoff_max], none⟩,
    ?_, rfl, rfl, rfl⟩
  show streamGo cfg channels (cfg.max_retries.toNat + 1) 0 = _
  rw [hk]
  simp only [streamGo, hra0, hra1, if_neg hlt]

/-- C9: calling `iter_messages()` on a `GoogleGenerativeAITransport` that
has not been entered raises `RuntimeError("Transport not entered")` rather
than hanging or yielding events. -/
theorem c9_iter_messages_requires_enter (cfg : GeminiStreamConfig)
    (req : GeminiGenerateRequest) :
    (GoogleGenerativeAITransport.init cfg req).iter_messages =
      Except.error "Transport not entered" := rfl

/-- C10: for every configuration with `heartbeat_interval ≤ 0` (including
negative values), `stream` starts no heartbeat task, and — with the
production transport, which never emits heartbeat events — the
caller-visible sequence contains no heartbeat event. -/
theorem c10_heartbeats_disabled (cfg : GeminiStreamConfig)
    (hhb : cfg.heartbeat_interval ≤ 0) :
    startsHeartbeatTask cfg = false ∧
    ∀ (chunksOf : Nat → List String) (failOf : Nat → Option String)
      (channels : Nat → List GeminiStreamEvent),
      (∀ i, ChannelOf cfg (googleBehavior (chunksOf i) (failOf i)) (channels i)) →
      ∀ tr, streamRun cfg channels = some tr →
        ∀ e ∈ tr.visible, e.event ≠ "heartbeat" := by
  constructor
  · simp only [startsHeartbeatTask, decide_eq_false_iff_not]
    exact not_lt.mpr hhb
  · intro chunksOf failOf channels hch tr htr e he
    obtain ⟨i, -, hmem⟩ := streamGo_visible_mem htr e he
    rw [channelOf_no_heartbeat (hch i) hhb] at hmem
    exact googleBehavior_no_heartbeat _ _ e hmem

/-- C8: inserting any number of heartbeat events at any positions in an
event sequence never changes the final text accumulated by a
`GeminiTextAccumulator` pushed with every event in order. -/
theorem c8_heartbeat_transparency (evs hbs merged : List GeminiStreamEvent)
    (hhb : AllHeartbeats hbs) (hint : Interleaving hbs evs merged) :
    (accumulate merged).text = (accumulate evs).text := by
  unfold accumulate
  rw [foldl_push_interleaving hhb hint]

/-! ### Witnesses -/

/-- Witness for C2 at `max_retries = 2` and a transport whose `enter()`
always raises `"boom"`. -/
theorem c2_retry_exhaustion_witness :
    (0 : Int) ≤ (testConfig 2).max_retries ∧
    ((∃ tr, streamRun (testConfig 2) (constChannels (enterFailing "boom")) = some tr ∧
        (tr.attemptsMade : Int) = (testConfig 2).max_retries + 1 ∧
        (∀ e ∈ tr.visible, e.event ≠ "chunk") ∧ tr.raised.isSome) ∧
      ∀ msg, pumpOutput (enterFailing msg) = pumpOutput (immediateError msg)) :=
  ⟨by decide, c2_retry_exhaustion (testConfig 2) (by decide) (fun _ => "boom")
    (constChannels (enterFailing "boom")) (fun _ => channelOf_pump _ _)⟩

/-- Witness for C3 at `max_retries = 1`: the single recorded delay equals
`min(backoff_base * 2 ^ 0, backoff_max)`. -/
theorem c3_backoff_law_witness :
    streamRun (testConfig 1) (constChannels (enterFailing "boom")) =
      some ⟨[], 2, [min ((testConfig 1).backoff_base * 2 ^ (0 + 1 - 1))
        (testConfig 1).backoff_max], some "boom"⟩ ∧
    (⟨[], 2, [min ((testConfig 1).backoff_base * 2 ^ (0 + 1 - 1))
        (testConfig 1).backoff_max], some "boom"⟩ : StreamTrace).delays.get
        ⟨0, by decide⟩ =
      min ((testConfig 1).backoff_base * 2 ^ 0) (testConfig 1).backoff_max :=
  ⟨rfl, c3_backoff_law (testConfig 1) (constChannels (enterFailing "boom"))
    ⟨[], 2, [min ((testConfig 1).backoff_base * 2 ^ (0 + 1 - 1))
      (testConfig 1).backoff_max], some "boom"⟩ rfl 0 (by decide)⟩

/-- Witness for the amended C4 at a conforming transport that yields
chunk `"B"` then `complete`. -/
theorem c4_amended_witness :
    streamRun (testConfig 3) (constChannels recoveryTransport) =
      some ⟨[⟨"chunk", some "B"⟩, completeEvent], 1, [], none⟩ ∧
    ((∀ e ∈ (⟨[⟨"chunk", some "B"⟩, completeEvent], 1, [], none⟩ :
        StreamTrace).visible, e.event ≠ "error" ∧ e.event ≠ "__end__") ∧
      ((∀ i : Nat, Conforming ((fun _ => recoveryTransport) i)) →
        GoodVisible (⟨[⟨"chunk", some "B"⟩, completeEvent], 1, [], none⟩ :
          StreamTrace).visible)) :=
  ⟨by decide, c4_amended (testConfig 3) (fun _ => recoveryTransport)
    (constChannels recoveryTransport) (fun _ => channelOf_pump _ _) _ (by decide)⟩

/-- Witness for the amended C5 at `max_retries = 0` and a transport whose
`enter()` raises `"boom"`. -/
theorem c5_amended_witness :
    streamRun (testConfig 0) (constChannels (enterFailing "boom")) =
      some ⟨[], 1, [], some "boom"⟩ ∧
    (⟨[], 1, [], some "boom"⟩ : StreamTrace).raised = some "boom" ∧
    ((⟨[], 1, [], some "boom"⟩ : StreamTrace).attemptsMade =
        (testConfig 0).max_retries.toNat + 1 ∧
      (∀ j < (⟨[], 1, [], some "boom"⟩ : StreamTrace).attemptsMade,
        ∃ ys t, runAttempt (constChannels (enterFailing "boom") j) =
          some (ys, AttemptOutcome.failure t)) ∧
      ∃ ys t, runAttempt (constChannels (enterFailing "boom")
          ((⟨[], 1, [], some "boom"⟩ : StreamTrace).attemptsMade - 1)) =
        some (ys, AttemptOutcome.failure t) ∧ "boom" = lastErrorMessage t) :=
  ⟨by decide, by decide, c5_amended _ _ _ _ (by decide) (by decide)⟩

/-- Witness for C6 with the test configuration (heartbeats disabled). -/
theorem c6_success_stream_witness :
    (testConfig 3).heartbeat_interval ≤ 0 ∧
    ∃ tr, streamRun (testConfig 3) (constChannels helloTransport) = some tr ∧
      tr.visible = [⟨"chunk", some "Hello"⟩, ⟨"chunk", some ", world"⟩,
        completeEvent] ∧
      tr.attemptsMade = 1 ∧ tr.raised = none ∧
      (accumulate tr.visible).text = "Hello, world" :=
  ⟨by decide, c6_success_stream (testConfig 3) (by decide) _
    (fun _ => channelOf_pump _ _)⟩

/-- Witness for C7 with the test configuration (`max_retries = 2`,
heartbeats disabled). -/
theorem c7_partial_chunks_kept_witness :
    (testConfig 2).heartbeat_interval ≤ 0 ∧ (1 : Int) ≤ (testConfig 2).max_retries ∧
    ∃ tr, streamRun (testConfig 2)
        (fun i => if i = 0 then pumpOutput partialFailTransport
          else pumpOutput recoveryTransport) = some tr ∧
      tr.visible = [⟨"chunk", some "A"⟩, ⟨"chunk", some "B"⟩, completeEvent] ∧
      tr.attemptsMade = 2 ∧ tr.raised = none :=
  ⟨by decide, by decide, c7_partial_chunks_kept (testConfig 2) (by decide)
    (by decide)
    (fun i => if i = 0 then pumpOutput partialFailTransport
      else pumpOutput recoveryTransport)
    (channelOf_pump _ _) (channelOf_pump _ _)⟩

/-- Witness for C8: one heartbeat inserted before a chunk leaves the
accumulated text unchanged. -/
theorem c8_heartbeat_transparency_witness :
    AllHeartbeats [heartbeatEvent] ∧
    Interleaving [heartbeatEvent] [⟨"chunk", some "hi"⟩]
      [heartbeatEvent, ⟨"chunk", some "hi"⟩] ∧
    (accumulate [heartbeatEvent, ⟨"chunk", some "hi"⟩]).text =
      (accumulate [⟨"chunk", some "hi"⟩]).text :=
  ⟨fun _e he => List.mem_singleton.mp he,
    Interleaving.left _ (Interleaving.right _ Interleaving.nil),
    c8_heartbeat_transparency _ _ _ (fun _e he => List.mem_singleton.mp he)
      (Interleaving.left _ (Interleaving.right _ Interleaving.nil))⟩

/-- Witness for C10 at a strictly negative heartbeat interval. -/
theorem c10_heartbeats_disabled_witness :
    negativeHeartbeatConfig.heartbeat_interval ≤ 0 ∧
    (startsHeartbeatTask negativeHeartbeatConfig = false ∧
      ∀ (chunksOf : Nat → List String) (failOf : Nat → Option String)
        (channels : Nat → List GeminiStreamEvent),
        (∀ i, ChannelOf negativeHeartbeatConfig
          (googleBehavior (chunksOf i) (failOf i)) (channels i)) →
        ∀ tr, streamRun negativeHeartbeatConfig channels = some tr →
          ∀ e ∈ tr.visible, e.event ≠ "heartbeat") :=
  ⟨by decide, c10_heartbeats_disabled _ (by decide)⟩
